import Mathlib

/-!
Shallow embedding of the routing core of the repository:
the SMTP next-hop address lookup (smtp/smtp_addr.c), the logical
line reader (util/readline.c), and the trivial-rewrite address
resolver (src/trivial-rewrite/resolve.c).

External collaborators that are not part of the source tree
(the DNS client, tok822 token machinery, match lists, libc) are
modelled as explicit oracles or as definitions marked
"Modelled from the spec".
-/

namespace Postfix

/-! ### DNS data model (smtp/smtp_addr.c and the C6 capability) -/

/-- DNS record type code for MX records (arpa/nameser.h `T_MX`). -/
def T_MX : Nat := 15

/-- DNS record type code for A records (arpa/nameser.h `T_A`). -/
def T_A : Nat := 1

/-- A DNS resource record as used by smtp_addr.c.  The C `data` field is an
opaque byte area; MX records carry a host name there (`dhost`) and A records
carry a 32-bit network address (`daddr`).  Equality on A records is by the
32-bit address value. -/
structure DNS_RR where
  name : String
  rtype : Nat
  ttl : Nat := 0
  pref : Nat := 0
  dhost : String := ""
  daddr : Nat := 0
deriving DecidableEq

/-- Modelled from the spec: reply of the C6 DNS client capability
`lookup(name, type) → (status, records, diagnostic)` (dns/dns_lookup.c is not
in the source tree).  `retry` stands for every status that falls into the
`default:` arm of the switches in smtp_addr.c (soft errors). -/
inductive DnsReply
  | ok (rrs : List DNS_RR)
  | notfound
  | fail
  | retry
deriving DecidableEq

/-- A DNS client: host name and record-type code to reply. -/
def DnsOracle : Type := String → Nat → DnsReply

/-- The `smtp_errno` global of the SMTP client. -/
inductive SmtpErr
  | unset
  | retry
  | fail
deriving DecidableEq

/-- Ambient state threaded through the C7 lookup engine: the `smtp_errno`
global and the `why` diagnostic buffer. -/
structure SmtpState where
  smtp_errno : SmtpErr := .unset
  why : String := ""
deriving DecidableEq

/-! ### smtp_addr.c, translated -/

/-- smtp_addr_one (smtp/smtp_addr.c:116): look up the A records of one host,
stamp the given MX preference on each, and append them to `addr_list`.
Failures set `smtp_errno` and leave the list alone. -/
def smtp_addr_one (dns : DnsOracle) (addr_list : List DNS_RR) (host : String)
    (pref : Nat) (st : SmtpState) : List DNS_RR × SmtpState :=
  match dns host T_A with
  | .ok addr => (addr_list ++ addr.map (fun r => { r with pref := pref }), st)
  | .retry => (addr_list, { st with smtp_errno := .retry })
  | .notfound => (addr_list, { st with smtp_errno := .fail })
  | .fail => (addr_list, { st with smtp_errno := .fail })

/-- smtp_addr_list (smtp/smtp_addr.c:147), inner loop with accumulator.
`none` models the `msg_panic` on a resource record that is not an MX
record. -/
def smtp_addr_list_go (dns : DnsOracle) (acc : List DNS_RR)
    (mxs : List DNS_RR) (st : SmtpState) : Option (List DNS_RR × SmtpState) :=
  match mxs with
  | [] => some (acc, st)
  | rr :: rest =>
    if rr.rtype = T_MX then
      let r := smtp_addr_one dns acc rr.dhost rr.pref st
      smtp_addr_list_go dns r.1 rest r.2
    else
      none

/-- smtp_addr_list (smtp/smtp_addr.c:147): address lookup for a list of mail
exchangers, ignoring per-MX lookup problems. -/
def smtp_addr_list (dns : DnsOracle) (mx_names : List DNS_RR)
    (st : SmtpState) : Option (List DNS_RR × SmtpState) :=
  smtp_addr_list_go dns [] mx_names st

/-- smtp_find_self (smtp/smtp_addr.c:166): the first address record whose
32-bit address equals one of the process's own listening addresses
(`own_inet_addr_list`, modelled as the list `self`). -/
def smtp_find_self (self : List Nat) (addr_list : List DNS_RR) : Option DNS_RR :=
  addr_list.find? (fun rr => self.contains rr.daddr)

/-- Tail of smtp_truncate_self's scan: keep records strictly before the first
one whose preference equals `p`. -/
def truncTail (l : List DNS_RR) (p : Nat) : List DNS_RR :=
  match l with
  | [] => []
  | x :: xs => if x.pref = p then [] else x :: truncTail xs p

/-- smtp_truncate_self (smtp/smtp_addr.c:199): truncate the address list at
the first record whose preference equals `pref`.  When that record is the
first of the list, the result is the null list and `smtp_errno` is set to
`SMTP_FAIL` with the loops-back diagnostic. -/
def smtp_truncate_self (addr_list : List DNS_RR) (pref : Nat) (name : String)
    (st : SmtpState) : List DNS_RR × SmtpState :=
  match addr_list with
  | [] => ([], st)
  | x :: xs =>
    if x.pref = pref then
      ([], { st with smtp_errno := .fail,
                     why := "mail for " ++ name ++ " loops back to myself" })
    else
      (x :: truncTail xs pref, st)

/-- Insertion step of the MX sort: place `x` before the first record with a
preference not smaller than `x`'s, so records that compare equal keep their
source order. -/
def rrInsert (x : DNS_RR) (l : List DNS_RR) : List DNS_RR :=
  match l with
  | [] => [x]
  | y :: ys => if x.pref ≤ y.pref then x :: y :: ys else y :: rrInsert x ys

/-- Modelled from the spec: dns_rr_sort with the smtp_compare_mx comparator
(dns/dns_rr.c is not in the source tree; the spec requires a stable sort of
the MX names by ascending preference). -/
def dns_rr_sort (l : List DNS_RR) : List DNS_RR :=
  match l with
  | [] => []
  | x :: xs => rrInsert x (dns_rr_sort xs)

/-- Split a character list at every dot. -/
def splitDots (l : List Char) : List (List Char) :=
  match l with
  | [] => [[]]
  | c :: cs =>
    match splitDots cs with
    | [] => [[]]
    | p :: ps => if c = '.' then [] :: p :: ps else (c :: p) :: ps

/-- Parse a non-empty run of decimal digits. -/
def parseDec (l : List Char) : Option Nat :=
  if l ≠ [] ∧ l.all Char.isDigit then
    some (l.foldl (fun acc c => acc * 10 + (c.toNat - 48)) 0)
  else none

/-- Modelled from the spec: the libc dotted-quad parser `inet_addr`.
Accepts `a.b.c.d` with each decimal part at most 255; the all-ones address
is `INADDR_NONE` and therefore rejected, as in the C guard. -/
def inet_addr (s : String) : Option Nat :=
  match splitDots s.data with
  | [a, b, c, d] =>
    match parseDec a, parseDec b, parseDec c, parseDec d with
    | some x, some y, some z, some w =>
      if x ≤ 255 ∧ y ≤ 255 ∧ z ≤ 255 ∧ w ≤ 255 then
        let v := ((x * 256 + y) * 256 + z) * 256 + w
        if v = 4294967295 then none else some v
      else none
    | _, _, _, _ => none
  | _ => none

/-- The `ISDIGIT(host[0])` guard of smtp_host_addr. -/
def headIsDigit (s : String) : Bool :=
  match s.data with
  | c :: _ => c.isDigit
  | [] => false

/-- smtp_host_addr (smtp/smtp_addr.c:274): direct host lookup.  A numerical
host is converted without any DNS query into a single record with
preference 0 (the `fixed` header fields are all zero); otherwise an A-only
lookup stamps preference 0 on every record. -/
def smtp_host_addr (dns : DnsOracle) (host : String)
    (st : SmtpState) : List DNS_RR × SmtpState :=
  if headIsDigit host then
    match inet_addr host with
    | some a => ([{ name := host, rtype := 0, ttl := 0, pref := 0, daddr := a }], st)
    | none => smtp_addr_one dns [] host 0 st
  else
    smtp_addr_one dns [] host 0 st

/-- smtp_domain_addr (smtp/smtp_addr.c:232): mail exchanger address lookup.
`self` models `own_inet_addr_list()`.  `none` models the panic inside
smtp_addr_list. -/
def smtp_domain_addr (dns : DnsOracle) (self : List Nat) (name : String)
    (st : SmtpState) : Option (List DNS_RR × SmtpState) :=
  match dns name T_MX with
  | .retry => some ([], { st with smtp_errno := .retry })
  | .fail => some ([], { st with smtp_errno := .fail })
  | .ok mx_names =>
    match smtp_addr_list dns (dns_rr_sort mx_names) st with
    | none => none
    | some (addr_list, st1) =>
      match smtp_find_self self addr_list with
      | some s => some (smtp_truncate_self addr_list s.pref name st1)
      | none => some (addr_list, st1)
  | .notfound => some (smtp_host_addr dns name st)

/-! ### util/readline.c, translated

The stream is a list of characters; `VSTREAM_EOF` is the end of the list,
and `vstream_ungetc` is modelled by leaving the pushed-back character at the
head of the remaining stream. -/

/-- The getc loop of readline (util/readline.c:60): returns the buffer, a
flag recording whether the loop ended on a newline (the final value of `ch`),
the rest of the stream, and the line counter. -/
def readlineGo (input : List Char) (buf : List Char) (n : Nat) :
    List Char × Bool × List Char × Nat :=
  match input with
  | [] => (buf, false, [], n)
  | ch :: rest =>
    if ch = '\n' then
      match rest with
      | next :: rest' =>
        if next = ' ' ∨ next = '\t' then
          readlineGo rest' (buf ++ [next]) (n + 1)
        else
          (buf, true, next :: rest', n + 1)
      | [] => (buf, true, [], n + 1)
    else
      readlineGo rest (buf ++ [ch]) n

/-- readline (util/readline.c:51): read one logical line.  The result is the
buffer, or `none` in place of the C null pointer, plus the remaining stream
and the updated line counter. -/
def readline (input : List Char) (n : Nat) :
    Option (List Char) × List Char × Nat :=
  let r := readlineGo input [] n
  (if r.1 ≠ [] ∨ r.2.1 = true then some r.1 else none, r.2.2.1, r.2.2.2)

/-! ### src/trivial-rewrite/resolve.c, translated

The tok822 address-token machinery, the canonical rewrite RPC,
resolve_local, the match lists and the lookup maps are external
collaborators (their sources are not in the tree); they enter the
translation as oracles, following the spec's contracts for them. -/

/-- Modelled from the spec: an address token of the C1 lexer (tok822.c is not
in the source tree).  Only the variants the resolver engine inspects are
kept: atoms, quoted strings (content stored unquoted) and single-character
operator tokens. -/
inductive Tok822
  | atom (s : String)
  | qstring (s : String)
  | op (c : Char)
deriving DecidableEq

/-- Modelled from the spec: tok822_internalize over a flat token list; the
internal form concatenates the token texts, quoted strings unquoted. -/
def tokStr (t : Tok822) : String :=
  match t with
  | .atom s => s
  | .qstring s => s
  | .op c => String.singleton c

/-- Internalized byte string of a token list. -/
def tok822Internalize (l : List Tok822) : String :=
  String.join (l.map tokStr)

/-- tok822_rfind_type over a flat token list: does an operator token with
this character occur anywhere at or before the tail? -/
def hasOp (l : List Tok822) (c : Char) : Bool :=
  l.contains (Tok822.op c)

/-- Split a token list at its rightmost `@` operator: `some (lp, d)` with
the tokens strictly before (`lp`, the `domain->prev` side) and strictly
after (`d`, the `domain->next` side); `none` when no `@` token exists. -/
def rsplitAtSign (l : List Tok822) : Option (List Tok822 × List Tok822) :=
  match l with
  | [] => none
  | t :: ts =>
    match rsplitAtSign ts with
    | some (lp, d) => some (t :: lp, d)
    | none => if t = Tok822.op '@' then some ([], ts) else none

/-- The result of one resolution, mirroring the `flags` bitset of
resolve_clnt.h: the orthogonal condition bits and the five classification
bits. -/
structure ResolveFlags where
  routed : Bool := false
  error : Bool := false
  fail : Bool := false
  clLocal : Bool := false
  clAlias : Bool := false
  clVirtual : Bool := false
  clRelay : Bool := false
  clDefault : Bool := false
deriving DecidableEq

/-- Number of classification bits that are set. -/
def classCount (f : ResolveFlags) : Nat :=
  (if f.clLocal then 1 else 0) + (if f.clAlias then 1 else 0) +
  (if f.clVirtual then 1 else 0) + (if f.clRelay then 1 else 0) +
  (if f.clDefault then 1 else 0)

/-- The mutable reply state of resolve_addr: the three output buffers, the
flags word, and the `blame` parameter name used by the sanity check. -/
structure RState where
  channel : String
  nexthop : String
  nextrcpt : String
  blame : Option String
  flags : ResolveFlags
deriving DecidableEq

/-- Latch the FAIL condition bit. -/
def setFail (r : RState) : RState :=
  { r with flags := { r.flags with fail := true } }

/-- Result of a match-list membership test (C3 contract): a hit, a clean
miss, or a miss with the shared lookup-error indicator raised. -/
inductive MatchRes
  | hit
  | miss
  | err
deriving DecidableEq

/-- Result of the relocated-map lookup. -/
inductive RelocRes
  | hit (newloc : String)
  | miss
  | err
deriving DecidableEq

/-- Modelled from the spec: result of transport_lookup
(src/trivial-rewrite/transport.c is not in the source tree).  On a hit the
map value supplies a transport and/or a next-hop; an empty field leaves the
corresponding buffer unchanged. -/
inductive TransportRes
  | hit (ch nh : String)
  | miss
  | err
deriving DecidableEq

/-- A match list that may be absent (a null static pointer when the
configuration parameter is empty, see resolve_init): an absent list is never
consulted and the test is false. -/
def matchO (l : Option (String → MatchRes)) (s : String) : MatchRes :=
  match l with
  | none => .miss
  | some f => f s

/-- The read-only resolver context: configuration strings, the match lists
and maps, and the valid_hostname oracle (util/valid_hostname.c is not in the
tree; only its header is). -/
structure ResolveCfg where
  myhostname : String
  relayhost : String
  local_transport : String
  def_transport : String
  relay_transport : String
  virt_transport : String
  error_transport : String
  transport_maps : String
  virt_alias_doms : Option (String → MatchRes)
  virt_mailbox_doms : Option (String → MatchRes)
  relay_domains : Option (String → MatchRes)
  relocated_maps : Option (String → RelocRes)
  transport_lookup : String → TransportRes
  valid_hostname : String → Bool

/-- The boolean knobs and the external token-level collaborators of the
stripping loop, as oracles. -/
structure ResolveOracles where
  resolve_dequoted : Bool
  swap_bangpath : Bool
  percent_hack : Bool
  resolve_local : String → Bool
  rewriteCanon : List Tok822 → List Tok822
  scanAddr : String → List Tok822
  quoteLocal : String → String

/-- ASCII lowercase of one character (the C `lowercase` helper). -/
def lowerChar (c : Char) : Char :=
  if 'A' ≤ c ∧ c ≤ 'Z' then Char.ofNat (c.toNat + 32) else c

/-- ASCII lowercase of a string. -/
def lowercaseStr (s : String) : String :=
  String.mk (s.data.map lowerChar)

/-- The character set of the `strspn` guard before the valid_hostname test:
brackets, digits and dots. -/
def spanChars : List Char :=
  ['[', ']', '0', '1', '2', '3', '4', '5', '6', '7', '8', '9', '.']

/-- True when the whole string lies in the span set, in which case the C
guard `s[strspn(s, "[]0123456789.")] != 0` is false and valid_hostname is
not consulted. -/
def spanAll (s : String) : Bool :=
  s.data.all (fun c => spanChars.contains c)

/-- split_at (util/split_at.c) on a character list: break at the first
occurrence of `c`; the second component is `none` when `c` does not occur
(in C the string is then left unmodified). -/
def splitChar (c : Char) (l : List Char) : List Char × Option (List Char) :=
  match l with
  | [] => ([], none)
  | x :: xs =>
    if x = c then ([], some xs)
    else
      let r := splitChar c xs
      (x :: r.1, r.2)

/-- split_at on strings. -/
def split_at (s : String) (c : Char) : String × Option String :=
  let r := splitChar c s.data
  (String.mk r.1, r.2.map String.mk)

/-- Outcome of the preliminary local-domain stripping loop
(resolve.c:138-194). `remote lp d t` is the break with a non-local domain:
`d` holds the tokens after the rightmost `@` (`domain->next`), `lp` the
tokens reachable through `domain->prev`, and `t` the tree that is
internalized into the recipient.  `localPath t saved` is the exit with
`domain == 0`. -/
inductive ParseOutcome
  | remote (lp d t : List Tok822)
  | localPath (t : List Tok822) (saved : Option (List Tok822))
deriving DecidableEq

/-- One-shot result of the part of a loop iteration from line 170 on:
either the loop is done with an outcome, or the tree was rewritten
canonically and the loop starts over. -/
inductive StepRes
  | done (out : ParseOutcome)
  | again (tree : List Tok822) (saved : Option (List Tok822))
      (domv : Option (List Tok822))
deriving DecidableEq

/-- Lines 170-193 of resolve.c: strip (and save) the rightmost `@domain`
when it is local, then decide whether to rewrite canonically and iterate
(`again`) or to leave the loop (`done`).  `domv` tracks the value of the C
variable `domain` that survives into the next iteration over a
`continue`. -/
def stripAfter (ora : ResolveOracles) (tree : List Tok822)
    (saved : Option (List Tok822)) (_domv : Option (List Tok822)) : StepRes :=
  match rsplitAtSign tree with
  | none =>
    if (ora.swap_bangpath && hasOp tree '!') || (ora.percent_hack && hasOp tree '%') then
      .again (ora.rewriteCanon tree) saved none
    else
      .done (.localPath tree saved)
  | some (lp, d) =>
    if ora.resolve_local (tok822Internalize d) then
      let saved' := some (Tok822.op '@' :: d)
      if hasOp lp '@' || (ora.swap_bangpath && hasOp lp '!') || (ora.percent_hack && hasOp lp '%') then
        .again (ora.rewriteCanon lp) saved' (some d)
      else
        .done (.localPath lp saved')
    else
      .done (.remote lp d tree)

/-- Guard of the trailing-dot strip (resolve.c:144-147): the tail is a dot,
an `@` token exists, and the token before the tail is not also a dot. -/
def dotStripCond (tree : List Tok822) : Bool :=
  decide (tree.getLast? = some (Tok822.op '.')) && hasOp tree '@' &&
  !(decide (tree.dropLast.getLast? = some (Tok822.op '.')))

/-- The preliminary resolver loop (resolve.c:138-194), fuel-indexed; `none`
means the fuel ran out before the loop terminated. -/
def stripLoop (ora : ResolveOracles) : Nat → List Tok822 →
    Option (List Tok822) → Option (List Tok822) → Option ParseOutcome
  | 0, _, _, _ => none
  | fuel' + 1, tree, saved, domv =>
    if tree = [] then
      some (match domv with
            | some d => ParseOutcome.remote [] d []
            | none => ParseOutcome.localPath [] saved)
    else
      let tree1 := if dotStripCond tree then tree.dropLast else tree
      if tree1.getLast? = some (Tok822.op '@') then
        stripLoop ora fuel' tree1.dropLast saved domv
      else
        let tree2 :=
          if tree1 = [Tok822.qstring ""] then
            ora.rewriteCanon [Tok822.atom "postmaster"]
          else tree1
        match stripAfter ora tree2 saved domv with
        | .done out => some out
        | .again t s d => stripLoop ora fuel' t s d

/-- Continuation of a loop iteration after the postmaster substitution:
run `stripAfter` and either stop or loop with the rewritten tree. -/
def stripPost (ora : ResolveOracles) (fuel : Nat) (tree : List Tok822)
    (saved : Option (List Tok822)) (domv : Option (List Tok822)) :
    Option ParseOutcome :=
  match stripAfter ora tree saved domv with
  | .done out => some out
  | .again t s d => stripLoop ora fuel t s d

/-- Lines 204-280 of resolve.c: the non-local classification.  `channel0` is
the content the caller's channel buffer happens to hold on entry (the code
only assigns it on the non-FAIL branches).  The cascade consults the
virtual-alias list, the virtual-mailbox list and the relay-domains list in
order; a raised lookup-error indicator latches FAIL; the relayhost override
is applied inside the relay/default block only. -/
def classifyRemote (cfg : ResolveCfg) (channel0 : String)
    (lp d t : List Tok822) : RState :=
  let routed := decide (lp ≠ []) &&
    (hasOp lp '@' || hasOp lp '!' || hasOp lp '%')
  let h := lowercaseStr (tok822Internalize d)
  let err := !(spanAll h) && !(cfg.valid_hostname h)
  let base : RState :=
    { channel := channel0, nexthop := h, nextrcpt := tok822Internalize t,
      blame := none, flags := { routed := routed, error := err } }
  match matchO cfg.virt_alias_doms h with
  | .hit =>
    { base with channel := cfg.error_transport, nexthop := "User unknown",
                blame := some "error_transport",
                flags := { base.flags with clAlias := true } }
  | .err => setFail base
  | .miss =>
    match matchO cfg.virt_mailbox_doms h with
    | .hit =>
      { base with channel := cfg.virt_transport,
                  blame := some "virtual_transport",
                  flags := { base.flags with clVirtual := true } }
    | .err => setFail base
    | .miss =>
      let r1 :=
        match matchO cfg.relay_domains h with
        | .hit =>
          { base with channel := cfg.relay_transport,
                      blame := some "relay_transport",
                      flags := { base.flags with clRelay := true } }
        | .err => setFail base
        | .miss =>
          { base with channel := cfg.def_transport,
                      blame := some "default_transport",
                      flags := { base.flags with clDefault := true } }
      if cfg.relayhost ≠ "" then { r1 with nexthop := cfg.relayhost } else r1

/-- Lines 281-283 of resolve.c: split the channel at the first colon; the
prefix always becomes the channel, and a non-empty suffix overrides the
next-hop. -/
def remoteSplit (r : RState) : RState :=
  match split_at r.channel ':' with
  | (pre, some dest) =>
    { r with channel := pre,
             nexthop := if dest ≠ "" then dest else r.nexthop }
  | (_, none) => r

/-- Lines 292-311 of resolve.c: the local classification.  The recipient
tree gets the saved local domain back, or `@myhostname` when none was
saved (`tok822_scan(var_myhostname)` modelled as one atom, which
internalizes to the same bytes). -/
def classifyLocal (cfg : ResolveCfg) (t : List Tok822)
    (saved : Option (List Tok822)) : RState :=
  let tree' := t ++ (match saved with
                     | some s => s
                     | none => [Tok822.op '@', Tok822.atom cfg.myhostname])
  let sp := split_at cfg.local_transport ':'
  let dest := match sp.2 with
              | some dd => if dd = "" then cfg.myhostname else dd
              | none => cfg.myhostname
  { channel := sp.1, nexthop := dest,
    nextrcpt := tok822Internalize tree',
    blame := some "local_transport",
    flags := { clLocal := true } }

/-- Lines 313-326 of resolve.c: the sanity checks, run only when FAIL is
clear.  A null channel with a known blame parameter is diagnosed and
latches FAIL; a null channel with no blame, or a null nexthop, is a panic
(`none`). -/
def sanityPhase (r : RState) : Option RState :=
  if r.flags.fail = true then some r
  else if r.channel = "" then
    if r.blame = none then none
    else if r.nexthop = "" then none else some (setFail r)
  else if r.nexthop = "" then none else some r

/-- Lines 337-350 of resolve.c: the relocated-map override. -/
def relocatedPhase (cfg : ResolveCfg) (r : RState) : RState :=
  if r.flags.fail = true then r
  else
    match cfg.relocated_maps with
    | none => r
    | some m =>
      match m r.nextrcpt with
      | .hit newloc =>
        { r with channel := cfg.error_transport,
                 nexthop := "user has moved to " ++ newloc }
      | .miss => r
      | .err => setFail r

/-- Lines 352-366 of resolve.c: the transport-map override, guarded by a
non-empty transport_maps setting, a clear FAIL bit, and a channel different
from the error transport. -/
def transportPhase (cfg : ResolveCfg) (r : RState) : RState :=
  if r.flags.fail = false ∧ cfg.transport_maps ≠ "" ∧
     r.channel ≠ cfg.error_transport then
    match cfg.transport_lookup r.nextrcpt with
    | .hit ch nh =>
      { r with channel := if ch ≠ "" then ch else r.channel,
               nexthop := if nh ≠ "" then nh else r.nexthop }
    | .miss => r
    | .err => setFail r
  else r

/-- The override and sanity phases after classification
(resolve.c:313-366). -/
def resolveFinish (cfg : ResolveCfg) (r : RState) : Option RState :=
  match sanityPhase r with
  | none => none
  | some r1 => some (transportPhase cfg (relocatedPhase cfg r1))

/-- Everything after the stripping loop (resolve.c:196-366), for either
loop outcome.  `none` models a panic. -/
def resolveOutcome (cfg : ResolveCfg) (channel0 : String)
    (out : ParseOutcome) : Option RState :=
  match out with
  | .remote lp d t =>
    resolveFinish cfg (remoteSplit (classifyRemote cfg channel0 lp d t))
  | .localPath t saved => resolveFinish cfg (classifyLocal cfg t saved)

/-- resolve_addr (resolve.c:97): parse, strip, classify, override.  The
outer `Option` is the stripping-loop fuel (`none` = fuel exhausted); the
inner `Option` is a panic. -/
def resolve_addr (cfg : ResolveCfg) (ora : ResolveOracles) (fuel : Nat)
    (addr : String) (channel0 : String) : Option (Option RState) :=
  let tree := if ora.resolve_dequoted then ora.scanAddr addr
              else ora.scanAddr (ora.quoteLocal addr)
  match stripLoop ora fuel tree none none with
  | none => none
  | some out => some (resolveOutcome cfg channel0 out)

/-! ### Concrete fixtures used by witness theorems -/

def dnsW : DnsOracle := fun host ty =>
  if ty = T_MX then
    (if host = "t.org" then
       DnsReply.ok
         [{ name := "t.org", rtype := T_MX, ttl := 0, pref := 20,
            dhost := "backup.t.org", daddr := 0 },
          { name := "t.org", rtype := T_MX, ttl := 0, pref := 10,
            dhost := "mx.example.com", daddr := 0 }]
     else DnsReply.notfound)
  else
    (if host = "mx.example.com" then
       DnsReply.ok [{ name := "mx.example.com", rtype := T_A, ttl := 0,
                      pref := 0, dhost := "", daddr := 1111 }]
     else if host = "backup.t.org" then
       DnsReply.ok [{ name := "backup.t.org", rtype := T_A, ttl := 0,
                      pref := 0, dhost := "", daddr := 2222 }]
     else DnsReply.notfound)

def mxsW : List DNS_RR :=
  [{ name := "t.org", rtype := T_MX, ttl := 0, pref := 20,
     dhost := "backup.t.org", daddr := 0 },
   { name := "t.org", rtype := T_MX, ttl := 0, pref := 10,
     dhost := "mx.example.com", daddr := 0 }]

def selfRRW : DNS_RR :=
  { name := "mx.example.com", rtype := T_A, ttl := 0, pref := 10,
    dhost := "", daddr := 1111 }

def backupRRW : DNS_RR :=
  { name := "backup.t.org", rtype := T_A, ttl := 0, pref := 20,
    dhost := "", daddr := 2222 }

def alW : List DNS_RR := [selfRRW, backupRRW]

def dnsQuiet : DnsOracle := fun _ _ => DnsReply.retry

/-- Resolver context of the spec's scenario section: myhostname
mx.example.com, default transports, everything else empty. -/
def cfgBase : ResolveCfg :=
  { myhostname := "mx.example.com", relayhost := "",
    local_transport := "local", def_transport := "smtp",
    relay_transport := "relay", virt_transport := "virtual",
    error_transport := "error", transport_maps := "",
    virt_alias_doms := none, virt_mailbox_doms := none,
    relay_domains := none, relocated_maps := none,
    transport_lookup := fun _ => .miss, valid_hostname := fun _ => true }

/-- A virtual-mailbox list holding exactly other.org. -/
def vmOther : Option (String → MatchRes) :=
  some (fun s => if s = "other.org" then .hit else .miss)

/-- Scenario config with a relayhost and other.org as a virtual-mailbox
domain. -/
def cfgV : ResolveCfg :=
  { cfgBase with relayhost := "smart.isp.net", virt_mailbox_doms := vmOther }

/-- Parse outcome for bob@other.org with a non-local domain. -/
def outV : ParseOutcome :=
  .remote [] [Tok822.atom "other.org"]
    [Tok822.atom "bob", Tok822.op '@', Tok822.atom "other.org"]

/-- Scenario config with a relayhost and client.org as a relay domain. -/
def cfgR : ResolveCfg :=
  { cfgBase with
      relayhost := "smart.isp.net",
      relay_domains := some (fun s => if s = "client.org" then .hit else .miss) }

/-- Scenario config with a colon next-hop inside default_transport and a
competing relayhost. -/
def cfgD : ResolveCfg :=
  { cfgBase with
      def_transport := "smtp:relay.isp.net",
      relayhost := "smart.isp.net" }

/-- Scenario config with an empty local transport. -/
def cfgL : ResolveCfg := { cfgBase with local_transport := "" }

/-- Parse outcome of a plain local user x. -/
def outL : ParseOutcome := .localPath [Tok822.atom "x"] none

/-- A resolver state classified ALIAS, sitting on the error transport. -/
def rAlias : RState :=
  { channel := "error", nexthop := "User unknown", nextrcpt := "u@gone.org",
    blame := some "error_transport", flags := { clAlias := true } }

/-- Config with a transport map that would hit everything. -/
def cfgT : ResolveCfg :=
  { cfgBase with
      transport_maps := "hash:transport",
      transport_lookup := fun _ => .hit "smtp2" "next2" }

/-- Oracles of the spec's scenario 1 (bare postmaster): empty address
externalizes to an empty quoted string, canonical rewrite appends
@example.com, example.com and mx.example.com are local. -/
def oraScn : ResolveOracles :=
  { resolve_dequoted := false, swap_bangpath := false, percent_hack := false,
    resolve_local := fun s => s == "example.com" || s == "mx.example.com",
    rewriteCanon := fun t =>
      if t = [Tok822.atom "postmaster"] then
        [Tok822.atom "postmaster", Tok822.op '@', Tok822.atom "example.com"]
      else t,
    scanAddr := fun s =>
      if s = "\"\"" then [Tok822.qstring ""] else [Tok822.atom s],
    quoteLocal := fun s => if s = "" then "\"\"" else s }

/-- Expected result of resolving local user x under the scenario config. -/
def rLocalX : RState :=
  { channel := "local", nexthop := "mx.example.com",
    nextrcpt := "x@mx.example.com", blame := some "local_transport",
    flags := { clLocal := true } }

/-- Expected VIRTUAL result for bob@other.org under cfgV. -/
def rVirt : RState :=
  { channel := "virtual", nexthop := "other.org",
    nextrcpt := "bob@other.org", blame := some "virtual_transport",
    flags := { clVirtual := true } }

/-- Expected diagnosed-FAIL result under the empty local transport. -/
def rFailL : RState :=
  { channel := "", nexthop := "mx.example.com",
    nextrcpt := "x@mx.example.com", blame := some "local_transport",
    flags := { clLocal := true, fail := true } }

/-- Expected result of the bare-postmaster scenario. -/
def rScn : RState :=
  { channel := "local", nexthop := "mx.example.com",
    nextrcpt := "postmaster@example.com", blame := some "local_transport",
    flags := { clLocal := true } }

/-- A state with an empty nexthop, for the panic witness. -/
def rNoHop : RState :=
  { channel := "c", nexthop := "", nextrcpt := "",
    blame := none, flags := {} }

/-! ### Lemmas about readline -/

/-- Unfolding of the getc loop on a character other than a newline. -/
theorem readlineGo_cons_ne (ch : Char) (rest buf : List Char) (n : Nat)
    (h : ¬ ch = '\n') :
    readlineGo (ch :: rest) buf n = readlineGo rest (buf ++ [ch]) n := by
  rw [readlineGo.eq_def]
  simp [h]

/-- The loop only ever appends to the buffer it is given. -/
theorem readlineGo_buf_ext (input : List Char) (buf : List Char) (n : Nat) :
    ∃ t, (readlineGo input buf n).1 = buf ++ t := by
  induction input, buf, n using readlineGo.induct with
  | case1 buf n => exact ⟨[], by simp [readlineGo]⟩
  | case2 buf n next rest' hnext ih =>
    obtain ⟨t, ht⟩ := ih
    exact ⟨next :: t, by simp [readlineGo, hnext, ht]⟩
  | case3 buf n next rest' hnext =>
    exact ⟨[], by simp [readlineGo, hnext]⟩
  | case4 buf n => exact ⟨[], by simp [readlineGo]⟩
  | case5 buf n ch rest h ih =>
    obtain ⟨t, ht⟩ := ih
    exact ⟨ch :: t, by rw [readlineGo_cons_ne ch rest buf n h, ht]; simp⟩

/-- The loop never stores a newline byte in the buffer. -/
theorem readlineGo_no_newline (input : List Char) (buf : List Char) (n : Nat)
    (hb : '\n' ∉ buf) : '\n' ∉ (readlineGo input buf n).1 := by
  induction input, buf, n using readlineGo.induct with
  | case1 buf n => simpa [readlineGo] using hb
  | case2 buf n next rest' hnext ih =>
    have hb' : '\n' ∉ buf ++ [next] := by
      intro hmem
      rcases List.mem_append.mp hmem with h1 | h1
      · exact hb h1
      · rcases hnext with h2 | h2 <;> simp_all
    simpa [readlineGo, hnext] using ih hb'
  | case3 buf n next rest' hnext => simpa [readlineGo, hnext] using hb
  | case4 buf n => simpa [readlineGo] using hb
  | case5 buf n ch rest h ih =>
    have hb' : '\n' ∉ buf ++ [ch] := by
      intro hmem
      rcases List.mem_append.mp hmem with h1 | h1
      · exact hb h1
      · have h2 : '\n' = ch := by simpa using h1
        exact h h2.symm
    rw [readlineGo_cons_ne ch rest buf n h]
    exact ih hb'

/-- A newline followed by a space or tab is a continuation: the newline is
dropped, the whitespace character kept, and the loop keeps reading. -/
theorem readlineGo_cont (u : List Char) (c : Char) (v buf : List Char) (n : Nat)
    (hu : '\n' ∉ u) (hc : c = ' ' ∨ c = '\t') :
    readlineGo (u ++ '\n' :: c :: v) buf n =
      readlineGo v (buf ++ u ++ [c]) (n + 1) := by
  induction u generalizing buf with
  | nil => simp [readlineGo, hc]
  | cons x u' ih =>
    have hx : ¬ x = '\n' := fun h => hu (h ▸ List.mem_cons_self x u')
    have hu' : '\n' ∉ u' := fun h => hu (List.mem_cons_of_mem x h)
    rw [List.cons_append, readlineGo_cons_ne x _ buf n hx, ih (buf ++ [x]) hu']
    simp [List.append_assoc]

/-- readline returns null exactly on immediate end-of-file. -/
theorem readline_none_iff (input : List Char) (n : Nat) :
    (readline input n).1 = none ↔ input = [] := by
  constructor
  · intro h
    by_contra hne
    match input, hne with
    | ch :: rest, _ =>
      by_cases hch : ch = '\n'
      · subst hch
        rw [readline] at h
        simp only at h
        match rest with
        | [] => simp [readlineGo] at h
        | next :: rest' =>
          by_cases hn : next = ' ' ∨ next = '\t'
          · obtain ⟨t, ht⟩ := readlineGo_buf_ext rest' [next] (n + 1)
            simp [readlineGo, hn, ht] at h
          · simp [readlineGo, hn] at h
      · obtain ⟨t, ht⟩ := readlineGo_buf_ext rest [ch] n
        rw [readline] at h
        simp only at h
        rw [readlineGo_cons_ne ch rest [] n hch] at h
        simp [ht] at h
  · intro h
    subst h
    simp [readline, readlineGo]

/-- Claim C10: readline returns a null pointer if and only if end-of-file is
reached before any character (even a bare newline) is consumed on this call;
an input of just a newline hence yields a non-null empty buffer; a returned
buffer never contains a newline byte; and the newline that joins a
whitespace-led continuation line is dropped while the continuation's leading
space or tab is kept in the buffer. -/
theorem claim_C10 :
    (∀ input n, (readline input n).1 = none ↔ input = []) ∧
    (∀ input n s, (readline input n).1 = some s → '\n' ∉ s) ∧
    (∀ u c v buf n, '\n' ∉ u → (c = ' ' ∨ c = '\t') →
      readlineGo (u ++ '\n' :: c :: v) buf n =
        readlineGo v (buf ++ u ++ [c]) (n + 1)) := by
  refine ⟨readline_none_iff, ?_, readlineGo_cont⟩
  intro input n s h
  have hs : s = (readlineGo input [] n).1 := by
    rw [readline] at h
    simp only at h
    by_cases hc : (readlineGo input [] n).1 ≠ [] ∨ (readlineGo input [] n).2.1 = true
    · rw [if_pos hc] at h
      exact (Option.some.injEq _ _ ▸ h).symm
    · rw [if_neg hc] at h
      exact absurd h (by simp)
  rw [hs]
  exact readlineGo_no_newline input [] n (by simp)

/-- Witness for C10 at concrete inputs: the line "ab\n" yields buffer "ab"
without the newline, and "a\n b..." glues the continuation keeping the
space. -/
theorem claim_C10_witness :
    '\n' ∉ ['a', 'b'] ∧
    readlineGo (['a'] ++ '\n' :: ' ' :: ['b']) [] 0 =
      readlineGo ['b'] ([] ++ ['a'] ++ [' ']) 1 := by
  constructor
  · exact claim_C10.2.1 ['a', 'b', '\n'] 0 ['a', 'b'] (by decide)
  · exact claim_C10.2.2 ['a'] ' ' ['b'] [] 0 (by decide) (Or.inl rfl)

/-! ### Lemmas and claims about the MX/A lookup engine -/

theorem rrInsert_perm (x : DNS_RR) (l : List DNS_RR) :
    (rrInsert x l).Perm (x :: l) := by
  induction l with
  | nil => simp [rrInsert]
  | cons y ys ih =>
    rw [rrInsert]
    by_cases h : x.pref ≤ y.pref
    · simp [h]
    · rw [if_neg h]
      exact (ih.cons y).trans (List.Perm.swap x y ys)

theorem rrInsert_sorted (x : DNS_RR) (l : List DNS_RR)
    (h : List.Pairwise (fun a b => a.pref ≤ b.pref) l) :
    List.Pairwise (fun a b => a.pref ≤ b.pref) (rrInsert x l) := by
  induction l with
  | nil => simp [rrInsert]
  | cons y ys ih =>
    rw [rrInsert]
    rcases List.pairwise_cons.mp h with ⟨hy, hys⟩
    by_cases hle : x.pref ≤ y.pref
    · rw [if_pos hle]
      refine List.Pairwise.cons ?_ h
      intro b hb
      rcases List.mem_cons.mp hb with rfl | hb
      · exact hle
      · exact le_trans hle (hy b hb)
    · rw [if_neg hle]
      have hyx : y.pref ≤ x.pref := le_of_not_le hle
      refine List.Pairwise.cons ?_ (ih hys)
      intro b hb
      have hb' : b ∈ x :: ys := (rrInsert_perm x ys).mem_iff.mp hb
      rcases List.mem_cons.mp hb' with rfl | hb'
      · exact hyx
      · exact hy b hb'

theorem dns_rr_sort_sorted (l : List DNS_RR) :
    List.Pairwise (fun a b => a.pref ≤ b.pref) (dns_rr_sort l) := by
  induction l with
  | nil => simp [dns_rr_sort]
  | cons x xs ih => exact rrInsert_sorted x (dns_rr_sort xs) ih

theorem dns_rr_sort_perm (l : List DNS_RR) : (dns_rr_sort l).Perm l := by
  induction l with
  | nil => simp [dns_rr_sort]
  | cons x xs ih =>
    rw [dns_rr_sort]
    exact (rrInsert_perm x (dns_rr_sort xs)).trans (ih.cons x)

theorem rrInsert_filter (x : DNS_RR) (l : List DNS_RR) (p : Nat) :
    (rrInsert x l).filter (fun a => decide (a.pref = p)) =
      if x.pref = p then x :: l.filter (fun a => decide (a.pref = p))
      else l.filter (fun a => decide (a.pref = p)) := by
  induction l with
  | nil => by_cases h : x.pref = p <;> simp [rrInsert, h]
  | cons y ys ih =>
    rw [rrInsert]
    by_cases hle : x.pref ≤ y.pref
    · rw [if_pos hle]
      by_cases hx : x.pref = p <;> simp [List.filter, hx]
    · rw [if_neg hle]
      have hyx : y.pref < x.pref := Nat.lt_of_not_le hle
      by_cases hx : x.pref = p
      · have hy : ¬ y.pref = p := by omega
        simp [List.filter, hy, hx, ih]
      · by_cases hy : y.pref = p <;> simp [List.filter, hy, hx, ih]

theorem dns_rr_sort_stable (l : List DNS_RR) (p : Nat) :
    (dns_rr_sort l).filter (fun a => decide (a.pref = p)) =
      l.filter (fun a => decide (a.pref = p)) := by
  induction l with
  | nil => rfl
  | cons x xs ih =>
    rw [dns_rr_sort, rrInsert_filter]
    by_cases hx : x.pref = p <;> simp [List.filter, hx, ih]

theorem pairwise_of_const_pref (l : List DNS_RR) (c : Nat)
    (h : ∀ r ∈ l, r.pref = c) :
    List.Pairwise (fun a b => a.pref ≤ b.pref) l := by
  induction l with
  | nil => simp
  | cons x xs ih =>
    refine List.Pairwise.cons ?_ (ih fun r hr => h r (List.mem_cons_of_mem x hr))
    intro b hb
    rw [h x (List.mem_cons_self x xs), h b (List.mem_cons_of_mem x hb)]

theorem smtp_addr_one_ext (dns : DnsOracle) (acc : List DNS_RR) (host : String)
    (pref : Nat) (st : SmtpState) :
    ∃ ext st', smtp_addr_one dns acc host pref st = (acc ++ ext, st') ∧
      ∀ r ∈ ext, r.pref = pref := by
  unfold smtp_addr_one
  cases h : dns host T_A with
  | ok addr =>
    refine ⟨addr.map (fun r => { r with pref := pref }), st, rfl, ?_⟩
    intro r hr
    obtain ⟨y, _, rfl⟩ := List.mem_map.mp hr
    rfl
  | notfound => exact ⟨[], { st with smtp_errno := .fail }, by simp, by simp⟩
  | fail => exact ⟨[], { st with smtp_errno := .fail }, by simp, by simp⟩
  | retry => exact ⟨[], { st with smtp_errno := .retry }, by simp, by simp⟩

theorem smtp_addr_list_go_sorted (dns : DnsOracle) :
    ∀ (mxs acc : List DNS_RR) (st : SmtpState) (al : List DNS_RR) (st' : SmtpState),
    List.Pairwise (fun a b => a.pref ≤ b.pref) acc →
    List.Pairwise (fun a b => a.pref ≤ b.pref) mxs →
    (∀ a ∈ acc, ∀ m ∈ mxs, a.pref ≤ m.pref) →
    smtp_addr_list_go dns acc mxs st = some (al, st') →
    List.Pairwise (fun a b => a.pref ≤ b.pref) al := by
  intro mxs
  induction mxs with
  | nil =>
    intro acc st al st' ha _ _ h
    rw [smtp_addr_list_go] at h
    cases h
    exact ha
  | cons rr rest ih =>
    intro acc st al st' ha hmx hcross h
    rw [smtp_addr_list_go] at h
    by_cases hty : rr.rtype = T_MX
    · rw [if_pos hty] at h
      obtain ⟨ext, st2, heq, hext⟩ := smtp_addr_one_ext dns acc rr.dhost rr.pref st
      rw [heq] at h
      rcases List.pairwise_cons.mp hmx with ⟨hrr, hrest⟩
      refine ih (acc ++ ext) st2 al st' ?_ hrest ?_ h
      · rw [List.pairwise_append]
        refine ⟨ha, pairwise_of_const_pref ext rr.pref hext, ?_⟩
        intro a hax b hbx
        exact le_of_le_of_eq (hcross a hax rr (List.mem_cons_self rr rest)) (hext b hbx).symm
      · intro a hax m hm
        rcases List.mem_append.mp hax with h1 | h1
        · exact hcross a h1 m (List.mem_cons_of_mem rr hm)
        · rw [hext a h1]
          exact hrr m hm
    · rw [if_neg hty] at h
      cases h

theorem truncTail_sublist (l : List DNS_RR) (p : Nat) :
    (truncTail l p).Sublist l := by
  induction l with
  | nil => simp [truncTail]
  | cons x xs ih =>
    rw [truncTail]
    by_cases h : x.pref = p
    · simp [h]
    · rw [if_neg h]
      exact ih.cons₂ x

theorem smtp_truncate_sublist (l : List DNS_RR) (p : Nat) (name : String)
    (st : SmtpState) : (smtp_truncate_self l p name st).1.Sublist l := by
  cases l with
  | nil => simp [smtp_truncate_self]
  | cons x xs =>
    rw [smtp_truncate_self]
    by_cases h : x.pref = p
    · simp [h]
    · rw [if_neg h]
      exact (truncTail_sublist xs p).cons₂ x

theorem truncTail_eq_filter (xs : List DNS_RR) (p : Nat)
    (hs : List.Pairwise (fun a b => a.pref ≤ b.pref) xs)
    (hmem : ∃ y ∈ xs, y.pref = p) :
    truncTail xs p = xs.filter (fun a => decide (a.pref < p)) := by
  induction xs with
  | nil => simp at hmem
  | cons x rest ih =>
    rcases List.pairwise_cons.mp hs with ⟨hx, hrest⟩
    rw [truncTail]
    by_cases h : x.pref = p
    · rw [if_pos h]
      have : ∀ a ∈ x :: rest, ¬ (decide (a.pref < p) = true) := by
        intro a ha
        rcases List.mem_cons.mp ha with rfl | ha
        · simp [h]
        · have := hx a ha
          simp only [decide_eq_true_eq]
          omega
      exact (List.filter_eq_nil_iff.mpr this).symm
    · rw [if_neg h]
      obtain ⟨y, hy, hyp⟩ := hmem
      rcases List.mem_cons.mp hy with rfl | hy
      · exact absurd hyp h
      · have hxp : x.pref < p := by
          have := hx y hy
          omega
        rw [List.filter_cons_of_pos (by simpa using hxp)]
        rw [ih hrest ⟨y, hy, hyp⟩]

theorem smtp_truncate_eq_filter (l : List DNS_RR) (p : Nat) (name : String)
    (st : SmtpState)
    (hs : List.Pairwise (fun a b => a.pref ≤ b.pref) l)
    (hmem : ∃ y ∈ l, y.pref = p) :
    (smtp_truncate_self l p name st).1 = l.filter (fun a => decide (a.pref < p)) := by
  cases l with
  | nil => simp at hmem
  | cons x xs =>
    rcases List.pairwise_cons.mp hs with ⟨hx, hxs⟩
    rw [smtp_truncate_self]
    by_cases h : x.pref = p
    · rw [if_pos h]
      have : ∀ a ∈ x :: xs, ¬ (decide (a.pref < p) = true) := by
        intro a ha
        rcases List.mem_cons.mp ha with rfl | ha
        · simp [h]
        · have := hx a ha
          simp only [decide_eq_true_eq]
          omega
      exact (List.filter_eq_nil_iff.mpr this).symm
    · rw [if_neg h]
      obtain ⟨y, hy, hyp⟩ := hmem
      rcases List.mem_cons.mp hy with rfl | hy
      · exact absurd hyp h
      · have hxp : x.pref < p := by
          have := hx y hy
          omega
        simp only
        rw [List.filter_cons_of_pos (by simpa using hxp)]
        rw [truncTail_eq_filter xs p hxs ⟨y, hy, hyp⟩]

end Postfix

namespace Postfix
theorem smtp_host_addr_sorted (dns : DnsOracle) (host : String) (st : SmtpState) :
    List.Pairwise (fun a b => a.pref ≤ b.pref) (smtp_host_addr dns host st).1 := by
  rw [smtp_host_addr]
  have hone : List.Pairwise (fun a b => a.pref ≤ b.pref)
      (smtp_addr_one dns [] host 0 st).1 := by
    obtain ⟨ext, st', heq, hext⟩ := smtp_addr_one_ext dns [] host 0 st
    rw [heq]
    simpa using pairwise_of_const_pref ext 0 hext
  by_cases hd : headIsDigit host
  · rw [if_pos hd]
    cases h : inet_addr host with
    | some a => simp
    | none => exact hone
  · rw [if_neg hd]
    exact hone

theorem smtp_domain_addr_sorted (dns : DnsOracle) (self : List Nat)
    (name : String) (st : SmtpState) (l : List DNS_RR) (st' : SmtpState)
    (h : smtp_domain_addr dns self name st = some (l, st')) :
    List.Pairwise (fun a b => a.pref ≤ b.pref) l := by
  rw [smtp_domain_addr] at h
  cases hmx : dns name T_MX with
  | retry =>
    rw [hmx] at h
    have h2 : (([] : List DNS_RR), ({ st with smtp_errno := SmtpErr.retry } : SmtpState)) = (l, st') :=
      Option.some.inj h
    have h3 : ([] : List DNS_RR) = l := congrArg Prod.fst h2
    rw [← h3]
    simp
  | fail =>
    rw [hmx] at h
    have h2 : (([] : List DNS_RR), ({ st with smtp_errno := SmtpErr.fail } : SmtpState)) = (l, st') :=
      Option.some.inj h
    have h3 : ([] : List DNS_RR) = l := congrArg Prod.fst h2
    rw [← h3]
    simp
  | notfound =>
    rw [hmx] at h
    have h2 := Option.some.inj h
    have hl : l = (smtp_host_addr dns name st).1 := by rw [h2]
    rw [hl]
    exact smtp_host_addr_sorted dns name st
  | ok mxs =>
    rw [hmx] at h
    have h' : (match smtp_addr_list dns (dns_rr_sort mxs) st with
               | none => none
               | some (addr_list, st1) =>
                 match smtp_find_self self addr_list with
                 | some s => some (smtp_truncate_self addr_list s.pref name st1)
                 | none => some (addr_list, st1)) = some (l, st') := h
    clear h
    cases hal : smtp_addr_list dns (dns_rr_sort mxs) st with
    | none =>
      rw [hal] at h'
      cases h'
    | some pr =>
      obtain ⟨al, st1⟩ := pr
      rw [hal] at h'
      have h2' : (match smtp_find_self self al with
                  | some s => some (smtp_truncate_self al s.pref name st1)
                  | none => some (al, st1)) = some (l, st') := h'
      clear h'
      have hgo : smtp_addr_list_go dns [] (dns_rr_sort mxs) st = some (al, st1) := hal
      have hsorted : List.Pairwise (fun a b => a.pref ≤ b.pref) al :=
        smtp_addr_list_go_sorted dns (dns_rr_sort mxs) [] st al st1
          (by simp) (dns_rr_sort_sorted mxs) (by simp) hgo
      cases hfs : smtp_find_self self al with
      | none =>
        rw [hfs] at h2'
        have h2 := Option.some.inj h2'
        have hl : l = al := by
          have h4 := congrArg Prod.fst h2
          simpa using h4.symm
        rw [hl]
        exact hsorted
      | some s =>
        rw [hfs] at h2'
        have h2 := Option.some.inj h2'
        have hl : l = (smtp_truncate_self al s.pref name st1).1 := by
          have h4 := congrArg Prod.fst h2
          simpa using h4.symm
        rw [hl]
        exact hsorted.sublist (smtp_truncate_sublist al s.pref name st1)

theorem claim_C2 (dns : DnsOracle) (self : List Nat) (name : String)
    (st : SmtpState) (mxs al : List DNS_RR) (st1 : SmtpState) (s : DNS_RR)
    (h1 : dns name T_MX = .ok mxs)
    (h2 : smtp_addr_list dns (dns_rr_sort mxs) st = some (al, st1))
    (h3 : smtp_find_self self al = some s) :
    smtp_domain_addr dns self name st =
      some (smtp_truncate_self al s.pref name st1) ∧
    (smtp_truncate_self al s.pref name st1).1 =
      al.filter (fun a => decide (a.pref < s.pref)) ∧
    (∀ tl, al = s :: tl →
       smtp_truncate_self al s.pref name st1 =
         ([], { st1 with
                  smtp_errno := .fail,
                  why := "mail for " ++ name ++ " loops back to myself" })) := by
  have hgo : smtp_addr_list_go dns [] (dns_rr_sort mxs) st = some (al, st1) := h2
  have hsorted : List.Pairwise (fun a b => a.pref ≤ b.pref) al :=
    smtp_addr_list_go_sorted dns (dns_rr_sort mxs) [] st al st1
      (by simp) (dns_rr_sort_sorted mxs) (by simp) hgo
  have hmem : s ∈ al := List.mem_of_find?_eq_some h3
  refine ⟨?_, ?_, ?_⟩
  · simp [smtp_domain_addr, h1, h2, h3]
  · exact smtp_truncate_eq_filter al s.pref name st1 hsorted ⟨s, hmem, rfl⟩
  · intro tl htl
    subst htl
    simp [smtp_truncate_self]

theorem claim_C3 :
    (∀ (dns : DnsOracle) (self : List Nat) (name : String) (st : SmtpState)
       (l : List DNS_RR) (st' : SmtpState),
       smtp_domain_addr dns self name st = some (l, st') →
       List.Pairwise (fun a b => a.pref ≤ b.pref) l) ∧
    (∀ (l : List DNS_RR) (p : Nat),
       (dns_rr_sort l).filter (fun a => decide (a.pref = p)) =
         l.filter (fun a => decide (a.pref = p))) ∧
    (∀ l : List DNS_RR, (dns_rr_sort l).Perm l) ∧
    (∀ (dns : DnsOracle) (acc : List DNS_RR) (host : String) (pref : Nat)
       (st : SmtpState) (rrs : List DNS_RR),
       dns host T_A = .ok rrs →
       smtp_addr_one dns acc host pref st =
         (acc ++ rrs.map (fun r => { r with pref := pref }), st)) := by
  refine ⟨smtp_domain_addr_sorted, dns_rr_sort_stable, dns_rr_sort_perm, ?_⟩
  intro dns acc host pref st rrs h
  simp [smtp_addr_one, h]

theorem claim_C8 :
    (∀ (dns : DnsOracle) (self : List Nat) (name : String) (st : SmtpState),
       dns name T_MX = .notfound →
       smtp_domain_addr dns self name st = some (smtp_host_addr dns name st)) ∧
    (∀ (dns dns' : DnsOracle) (host : String) (st : SmtpState) (a : Nat),
       headIsDigit host = true → inet_addr host = some a →
       smtp_host_addr dns host st =
         ([{ name := host, rtype := 0, ttl := 0, pref := 0, dhost := "",
             daddr := a }], st) ∧
       smtp_host_addr dns host st = smtp_host_addr dns' host st) ∧
    (∀ (dns : DnsOracle) (host : String) (st : SmtpState),
       (headIsDigit host = false ∨ inet_addr host = none) →
       smtp_host_addr dns host st = smtp_addr_one dns [] host 0 st) ∧
    (∀ (dns : DnsOracle) (host : String) (st : SmtpState) (rrs : List DNS_RR),
       dns host T_A = .ok rrs →
       smtp_addr_one dns [] host 0 st =
         (rrs.map (fun r => { r with pref := 0 }), st)) := by
  refine ⟨?_, ?_, ?_, ?_⟩
  · intro dns self name st h
    simp [smtp_domain_addr, h]
  · intro dns dns' host st a hd ha
    constructor
    · simp [smtp_host_addr, hd, ha]
    · simp [smtp_host_addr, hd, ha]
  · intro dns host st h
    rcases h with h | h
    · simp [smtp_host_addr, h]
    · by_cases hd : headIsDigit host
      · simp [smtp_host_addr, hd, h]
      · simp [smtp_host_addr, hd]
  · intro dns host st rrs h
    simp [smtp_addr_one, h]

theorem claim_C2_witness :
    smtp_domain_addr dnsW [1111] "t.org" {} =
      some (smtp_truncate_self alW 10 "t.org" {}) ∧
    smtp_truncate_self alW 10 "t.org" {} =
      ([], { smtp_errno := .fail
             why := "mail for t.org loops back to myself" }) := by
  have h := claim_C2 dnsW [1111] "t.org" {} mxsW alW {} selfRRW
    (by decide) (by decide) (by decide)
  exact ⟨h.1, h.2.2 [backupRRW] rfl⟩

theorem claim_C3_witness :
    List.Pairwise (fun a b => a.pref ≤ b.pref) alW ∧
    (dns_rr_sort mxsW).filter (fun a => decide (a.pref = 20)) =
      mxsW.filter (fun a => decide (a.pref = 20)) ∧
    (dns_rr_sort mxsW).Perm mxsW ∧
    smtp_addr_one dnsW [] "mx.example.com" 7 {} =
      ([] ++ ([{ name := "mx.example.com", rtype := T_A, ttl := 0,
                 pref := 0, dhost := "", daddr := 1111 }] : List DNS_RR).map
          (fun r => { r with pref := 7 }), ({} : SmtpState)) := by
  refine ⟨claim_C3.1 dnsW [] "t.org" {} alW {} (by decide), ?_, ?_, ?_⟩
  · exact claim_C3.2.1 mxsW 20
  · exact claim_C3.2.2.1 mxsW
  · exact claim_C3.2.2.2 dnsW [] "mx.example.com" 7 {}
      [{ name := "mx.example.com", rtype := T_A, ttl := 0, pref := 0,
         dhost := "", daddr := 1111 }] (by decide)

theorem claim_C8_witness :
    smtp_domain_addr dnsW [] "other.example" {} =
      some (smtp_host_addr dnsW "other.example" {}) ∧
    smtp_host_addr dnsW "10.2.3.4" {} = smtp_host_addr dnsQuiet "10.2.3.4" {} ∧
    smtp_host_addr dnsW "mx.example.com" {} =
      smtp_addr_one dnsW [] "mx.example.com" 0 {} ∧
    smtp_addr_one dnsW [] "mx.example.com" 0 {} =
      (([{ name := "mx.example.com", rtype := T_A, ttl := 0, pref := 0,
           dhost := "", daddr := 1111 }] : List DNS_RR).map
         (fun r => { r with pref := 0 }), ({} : SmtpState)) := by
  refine ⟨?_, ?_, ?_, ?_⟩
  · exact claim_C8.1 dnsW [] "other.example" {} (by decide)
  · exact (claim_C8.2.1 dnsW dnsQuiet "10.2.3.4" {} 167904004 (by decide) (by decide)).2
  · exact claim_C8.2.2.1 dnsW "mx.example.com" {} (Or.inl (by decide))
  · exact claim_C8.2.2.2 dnsW "mx.example.com" {}
      [{ name := "mx.example.com", rtype := T_A, ttl := 0, pref := 0,
         dhost := "", daddr := 1111 }] (by decide)

/-! ### Lemmas and claims about the resolver engine -/

/-- The colon split never touches the flags word. -/
theorem remoteSplit_flags (r : RState) : (remoteSplit r).flags = r.flags := by
  rw [remoteSplit]
  rcases h : split_at r.channel ':' with ⟨pre, s?⟩
  cases s? <;> rfl

/-- Exiting the sanity phase yields the input state, possibly with FAIL
latched. -/
theorem sanityPhase_some_cases (r r1 : RState) (h : sanityPhase r = some r1) :
    r1 = r ∨ r1 = setFail r := by
  rw [sanityPhase] at h
  by_cases h1 : r.flags.fail = true
  · rw [if_pos h1] at h
    exact Or.inl (Option.some.inj h).symm
  · rw [if_neg h1] at h
    by_cases h2 : r.channel = ""
    · rw [if_pos h2] at h
      by_cases h3 : r.blame = none
      · rw [if_pos h3] at h
        cases h
      · rw [if_neg h3] at h
        by_cases h4 : r.nexthop = ""
        · rw [if_pos h4] at h
          cases h
        · rw [if_neg h4] at h
          exact Or.inr (Option.some.inj h).symm
    · rw [if_neg h2] at h
      by_cases h5 : r.nexthop = ""
      · rw [if_pos h5] at h
        cases h
      · rw [if_neg h5] at h
        exact Or.inl (Option.some.inj h).symm

/-- A state that leaves the sanity phase with FAIL still clear has a
non-empty nexthop. -/
theorem sanityPhase_nexthop (r r1 : RState) (h : sanityPhase r = some r1)
    (hf : r1.flags.fail = false) : r1.nexthop ≠ "" := by
  rw [sanityPhase] at h
  by_cases h1 : r.flags.fail = true
  · rw [if_pos h1] at h
    have hr := Option.some.inj h
    rw [← hr] at hf
    rw [hf] at h1
    cases h1
  · rw [if_neg h1] at h
    by_cases h2 : r.channel = ""
    · rw [if_pos h2] at h
      by_cases h3 : r.blame = none
      · rw [if_pos h3] at h
        cases h
      · rw [if_neg h3] at h
        by_cases h4 : r.nexthop = ""
        · rw [if_pos h4] at h
          cases h
        · rw [if_neg h4] at h
          have hr := Option.some.inj h
          rw [← hr]
          exact h4
    · rw [if_neg h2] at h
      by_cases h5 : r.nexthop = ""
      · rw [if_pos h5] at h
        cases h
      · rw [if_neg h5] at h
        have hr := Option.some.inj h
        rw [← hr]
        exact h5

/-- The relocated phase is the identity once FAIL is latched. -/
theorem relocatedPhase_fail (cfg : ResolveCfg) (r : RState)
    (h : r.flags.fail = true) : relocatedPhase cfg r = r := by
  rw [relocatedPhase, if_pos h]

/-- The transport phase is the identity once FAIL is latched. -/
theorem transportPhase_fail (cfg : ResolveCfg) (r : RState)
    (h : r.flags.fail = true) : transportPhase cfg r = r := by
  rw [transportPhase, if_neg]
  simp [h]

/-- The relocated phase either keeps the flags or latches FAIL. -/
theorem relocatedPhase_flags (cfg : ResolveCfg) (r : RState) :
    (relocatedPhase cfg r).flags = r.flags ∨
    (relocatedPhase cfg r).flags = { r.flags with fail := true } := by
  rw [relocatedPhase]
  split_ifs with h1
  · exact Or.inl rfl
  cases hmap : cfg.relocated_maps with
  | none => exact Or.inl rfl
  | some m =>
    cases hm : m r.nextrcpt with
    | hit newloc => simp [hm]
    | miss => simp [hm]
    | err => simp [hm, setFail]

/-- The transport phase either keeps the flags or latches FAIL. -/
theorem transportPhase_flags (cfg : ResolveCfg) (r : RState) :
    (transportPhase cfg r).flags = r.flags ∨
    (transportPhase cfg r).flags = { r.flags with fail := true } := by
  rw [transportPhase]
  split_ifs with h1
  · cases hm : cfg.transport_lookup r.nextrcpt with
    | hit ch nh => simp [hm]
    | miss => simp [hm]
    | err => simp [hm, setFail]
  · exact Or.inl rfl

/-- The relocated phase never empties the nexthop. -/
theorem relocatedPhase_nexthop (cfg : ResolveCfg) (r : RState)
    (h : r.nexthop ≠ "") : (relocatedPhase cfg r).nexthop ≠ "" := by
  rw [relocatedPhase]
  split_ifs with h1
  · exact h
  cases hmap : cfg.relocated_maps with
  | none => exact h
  | some m =>
    cases hm : m r.nextrcpt with
    | miss => simpa [hm] using h
    | err => simpa [hm, setFail] using h
    | hit newloc =>
      simp only [hm]
      intro heq
      have hlen := congrArg String.length heq
      rw [String.length_append] at hlen
      have h18 : ("user has moved to " : String).length = 18 := rfl
      have h0 : ("" : String).length = 0 := rfl
      rw [h18, h0] at hlen
      omega

/-- The transport phase never empties the nexthop. -/
theorem transportPhase_nexthop (cfg : ResolveCfg) (r : RState)
    (h : r.nexthop ≠ "") : (transportPhase cfg r).nexthop ≠ "" := by
  rw [transportPhase]
  split_ifs with h1
  · cases hm : cfg.transport_lookup r.nextrcpt with
    | miss => simpa [hm] using h
    | err => simpa [hm, setFail] using h
    | hit ch nh =>
      simp only [hm]
      split_ifs with h2
      · exact h2
      · exact h
  · exact h

/-- When a returned state still has FAIL clear, so did the state entering
the override phases, and the nexthop survives them non-empty. -/
theorem resolveFinish_nexthop (cfg : ResolveCfg) (s r : RState)
    (h : resolveFinish cfg s = some r)
    (hf : r.flags.fail = false) : r.nexthop ≠ "" := by
  rw [resolveFinish] at h
  cases hs : sanityPhase s with
  | none => rw [hs] at h; cases h
  | some r1 =>
    rw [hs] at h
    have hr : r = transportPhase cfg (relocatedPhase cfg r1) :=
      (Option.some.inj h).symm
    by_cases h1 : r1.flags.fail = true
    · rw [relocatedPhase_fail cfg r1 h1, transportPhase_fail cfg r1 h1] at hr
      rw [hr] at hf
      rw [hf] at h1
      cases h1
    · have hn1 : r1.nexthop ≠ "" :=
        sanityPhase_nexthop s r1 hs (by simpa using h1)
      rw [hr]
      exact transportPhase_nexthop cfg _ (relocatedPhase_nexthop cfg r1 hn1)

/-- Flag preservation step: a state whose flags are the old flags with at
most FAIL added keeps the fail-or-one-class invariant. -/
theorem flags_step (f g : ResolveFlags)
    (hg : g = f ∨ g = { f with fail := true })
    (hf : f.fail = true ∨ classCount f = 1) :
    g.fail = true ∨ classCount g = 1 := by
  rcases hg with rfl | rfl
  · exact hf
  · rcases hf with hf | hf
    · left; rfl
    · right; exact hf

/-- The non-local cascade leaves either FAIL with no promise, or exactly
one classification bit. -/
theorem classifyRemote_one (cfg : ResolveCfg) (ch0 : String)
    (lp d t : List Tok822) :
    (classifyRemote cfg ch0 lp d t).flags.fail = true ∨
    classCount (classifyRemote cfg ch0 lp d t).flags = 1 := by
  cases hva : matchO cfg.virt_alias_doms (lowercaseStr (tok822Internalize d)) with
  | hit => right; simp [classifyRemote, hva, classCount]
  | err => left; simp [classifyRemote, hva, setFail]
  | miss =>
    cases hvm : matchO cfg.virt_mailbox_doms (lowercaseStr (tok822Internalize d)) with
    | hit => right; simp [classifyRemote, hva, hvm, classCount]
    | err => left; simp [classifyRemote, hva, hvm, setFail]
    | miss =>
      cases hrd : matchO cfg.relay_domains (lowercaseStr (tok822Internalize d)) with
      | hit =>
        right
        by_cases hrh : cfg.relayhost ≠ "" <;>
          simp [classifyRemote, hva, hvm, hrd, hrh, classCount]
      | err =>
        left
        by_cases hrh : cfg.relayhost ≠ "" <;>
          simp [classifyRemote, hva, hvm, hrd, hrh, setFail]
      | miss =>
        right
        by_cases hrh : cfg.relayhost ≠ "" <;>
          simp [classifyRemote, hva, hvm, hrd, hrh, classCount]

/-- Carrying the fail-or-one-class invariant through sanity and the two
override phases. -/
theorem resolveFinish_one (cfg : ResolveCfg) (s r : RState)
    (hs : s.flags.fail = true ∨ classCount s.flags = 1)
    (h : resolveFinish cfg s = some r) :
    r.flags.fail = true ∨ classCount r.flags = 1 := by
  rw [resolveFinish] at h
  cases hsan : sanityPhase s with
  | none => rw [hsan] at h; cases h
  | some r1 =>
    rw [hsan] at h
    have hr : r = transportPhase cfg (relocatedPhase cfg r1) :=
      (Option.some.inj h).symm
    have h1 : r1.flags.fail = true ∨ classCount r1.flags = 1 := by
      rcases sanityPhase_some_cases s r1 hsan with rfl | rfl
      · exact hs
      · exact flags_step s.flags (setFail s).flags (Or.inr rfl) hs
    have h2 := flags_step r1.flags (relocatedPhase cfg r1).flags
      (relocatedPhase_flags cfg r1) h1
    have h3 := flags_step (relocatedPhase cfg r1).flags
      (transportPhase cfg (relocatedPhase cfg r1)).flags
      (transportPhase_flags cfg (relocatedPhase cfg r1)) h2
    rw [hr]
    exact h3

/-- Claim C1: on every return of resolve_addr (either classification path,
with or without the ERROR condition bit), either the FAIL bit is set, or
exactly one of the five classification bits LOCAL, ALIAS, VIRTUAL, RELAY,
DEFAULT is set. -/
theorem claim_C1 (cfg : ResolveCfg) (ch0 : String) (out : ParseOutcome)
    (r : RState) (h : resolveOutcome cfg ch0 out = some r) :
    r.flags.fail = true ∨ classCount r.flags = 1 := by
  cases out with
  | remote lp d t =>
    have hstage : (remoteSplit (classifyRemote cfg ch0 lp d t)).flags.fail = true ∨
        classCount (remoteSplit (classifyRemote cfg ch0 lp d t)).flags = 1 := by
      rw [remoteSplit_flags]
      exact classifyRemote_one cfg ch0 lp d t
    exact resolveFinish_one cfg _ r hstage h
  | localPath t saved =>
    have hstage : (classifyLocal cfg t saved).flags.fail = true ∨
        classCount (classifyLocal cfg t saved).flags = 1 := by
      right; rfl
    exact resolveFinish_one cfg _ r hstage h

/-- Witness for C1: a concrete local resolution has exactly one
classification bit. -/
theorem claim_C1_witness :
    rLocalX.flags.fail = true ∨ classCount rLocalX.flags = 1 := by
  exact claim_C1 cfgBase "x" outL rLocalX (by decide)

/-- Claim C4 (amended): with a non-empty relayhost, the override reaches
exactly the RELAY and DEFAULT classifications; a VIRTUAL classification
keeps the domain as nexthop and an ALIAS classification keeps "User
unknown". -/
theorem claim_C4 (cfg : ResolveCfg) (ch0 : String) (lp d t : List Tok822)
    (hrh : cfg.relayhost ≠ "") :
    (((classifyRemote cfg ch0 lp d t).flags.clRelay = true ∨
      (classifyRemote cfg ch0 lp d t).flags.clDefault = true) →
      (classifyRemote cfg ch0 lp d t).nexthop = cfg.relayhost) ∧
    ((classifyRemote cfg ch0 lp d t).flags.clVirtual = true →
      (classifyRemote cfg ch0 lp d t).nexthop =
        lowercaseStr (tok822Internalize d)) ∧
    ((classifyRemote cfg ch0 lp d t).flags.clAlias = true →
      (classifyRemote cfg ch0 lp d t).nexthop = "User unknown") := by
  cases hva : matchO cfg.virt_alias_doms (lowercaseStr (tok822Internalize d)) with
  | hit => refine ⟨?_, ?_, ?_⟩ <;> simp [classifyRemote, hva, setFail]
  | err => refine ⟨?_, ?_, ?_⟩ <;> simp [classifyRemote, hva, setFail]
  | miss =>
    cases hvm : matchO cfg.virt_mailbox_doms (lowercaseStr (tok822Internalize d)) with
    | hit => refine ⟨?_, ?_, ?_⟩ <;> simp [classifyRemote, hva, hvm, setFail]
    | err => refine ⟨?_, ?_, ?_⟩ <;> simp [classifyRemote, hva, hvm, setFail]
    | miss =>
      cases hrd : matchO cfg.relay_domains (lowercaseStr (tok822Internalize d)) with
      | hit =>
        refine ⟨?_, ?_, ?_⟩ <;>
          simp [classifyRemote, hva, hvm, hrd, hrh, setFail]
      | err =>
        refine ⟨?_, ?_, ?_⟩ <;>
          simp [classifyRemote, hva, hvm, hrd, hrh, setFail]
      | miss =>
        refine ⟨?_, ?_, ?_⟩ <;>
          simp [classifyRemote, hva, hvm, hrd, hrh, setFail]

/-- Counterexample for C4 as stated: with relayhost smart.isp.net and
other.org a virtual-mailbox domain, the VIRTUAL classification keeps
nexthop other.org; the relayhost override is not applied in case 3. -/
theorem claim_C4_counterexample :
    resolveOutcome cfgV "x" outV = some rVirt ∧
    cfgV.relayhost = "smart.isp.net" ∧ rVirt.flags.clVirtual = true ∧
    rVirt.nexthop ≠ "smart.isp.net" := by
  refine ⟨by decide, rfl, rfl, by decide⟩

/-- Witness for C4: a RELAY classification under a non-empty relayhost gets
the relayhost as nexthop. -/
theorem claim_C4_witness :
    (classifyRemote cfgR "x" [] [Tok822.atom "client.org"]
       [Tok822.atom "c", Tok822.op '@', Tok822.atom "client.org"]).nexthop =
      cfgR.relayhost := by
  exact (claim_C4 cfgR "x" [] [Tok822.atom "client.org"]
      [Tok822.atom "c", Tok822.op '@', Tok822.atom "client.org"]
      (by decide)).1 (Or.inl (by decide))

/-- Claim C5: after classification the channel is split at its first colon;
the prefix always becomes the channel and a non-empty suffix overrides the
nexthop; the split runs after the whole classification (relayhost override
included), so a channel-embedded nexthop wins over a non-empty
relayhost. -/
theorem claim_C5 :
    (∀ (r : RState) (pre suf : String),
       split_at r.channel ':' = (pre, some suf) →
       (remoteSplit r).channel = pre ∧
       (suf ≠ "" → (remoteSplit r).nexthop = suf) ∧
       (suf = "" → (remoteSplit r).nexthop = r.nexthop)) ∧
    (∀ (cfg : ResolveCfg) (ch0 : String) (lp d t : List Tok822),
       resolveOutcome cfg ch0 (.remote lp d t) =
         resolveFinish cfg (remoteSplit (classifyRemote cfg ch0 lp d t))) := by
  constructor
  · intro r pre suf h
    rw [remoteSplit, h]
    refine ⟨rfl, ?_, ?_⟩
    · intro hs
      simp [hs]
    · intro hs
      simp [hs]
  · intro cfg ch0 lp d t
    rfl

/-- Witness for C5: default_transport smtp:relay.isp.net beats relayhost
smart.isp.net — channel smtp, nexthop relay.isp.net. -/
theorem claim_C5_witness :
    (remoteSplit (classifyRemote cfgD "x" [] [Tok822.atom "other.org"]
       [Tok822.atom "bob", Tok822.op '@', Tok822.atom "other.org"])).channel =
      "smtp" ∧
    (remoteSplit (classifyRemote cfgD "x" [] [Tok822.atom "other.org"]
       [Tok822.atom "bob", Tok822.op '@', Tok822.atom "other.org"])).nexthop =
      "relay.isp.net" := by
  have h := claim_C5.1 (classifyRemote cfgD "x" [] [Tok822.atom "other.org"]
    [Tok822.atom "bob", Tok822.op '@', Tok822.atom "other.org"])
    "smtp" "relay.isp.net" (by decide)
  exact ⟨h.1, h.2.1 (by decide)⟩

/-- Claim C6 (amended): when the sanity phase is reached with FAIL clear, an
empty channel with a known blame parameter is diagnosed and latches FAIL
(the process does not abort); an empty channel with no blame, or an empty
nexthop, is a panic; consequently every return whose FAIL bit is clear
carries a non-empty nexthop. -/
theorem claim_C6 :
    (∀ (cfg : ResolveCfg) (ch0 : String) (out : ParseOutcome) (r : RState),
       resolveOutcome cfg ch0 out = some r →
       r.flags.fail = false → r.nexthop ≠ "") ∧
    (∀ (r : RState) (b : String),
       r.flags.fail = false → r.channel = "" → r.blame = some b →
       sanityPhase r = if r.nexthop = "" then none else some (setFail r)) ∧
    (∀ r : RState,
       r.flags.fail = false → r.channel = "" → r.blame = none →
       sanityPhase r = none) ∧
    (∀ r : RState,
       r.flags.fail = false → r.channel ≠ "" → r.nexthop = "" →
       sanityPhase r = none) := by
  refine ⟨?_, ?_, ?_, ?_⟩
  · intro cfg ch0 out r h hf
    cases out with
    | remote lp d t => exact resolveFinish_nexthop cfg _ r h hf
    | localPath t saved => exact resolveFinish_nexthop cfg _ r h hf
  · intro r b hf hc hb
    rw [sanityPhase]
    simp [hf, hc, hb]
  · intro r hf hc hb
    rw [sanityPhase]
    simp [hf, hc, hb]
  · intro r hf hc hn
    rw [sanityPhase]
    simp [hf, hc, hn]

/-- Counterexample for C6 as stated: an empty local_transport does not
abort; resolve_addr returns normally with a diagnosed FAIL and the blame on
local_transport. -/
theorem claim_C6_counterexample :
    resolveOutcome cfgL "x" outL = some rFailL ∧ rFailL.flags.fail = true := by
  exact ⟨by decide, rfl⟩

/-- Witness for C6 at concrete states. -/
theorem claim_C6_witness :
    rLocalX.nexthop ≠ "" ∧ sanityPhase rNoHop = none := by
  constructor
  · exact claim_C6.1 cfgBase "x" outL rLocalX (by decide) (by decide)
  · exact claim_C6.2.2.2 rNoHop rfl (by decide) rfl

/-- Claim C7: the transport map phase leaves channel and nexthop untouched
whenever the transport map configuration is empty, FAIL is set, or the
channel equals the error transport (the ALIAS "User unknown" and the
relocated "user has moved" results are never reclassified). -/
theorem claim_C7 (cfg : ResolveCfg) (r : RState)
    (h : cfg.transport_maps = "" ∨ r.flags.fail = true ∨
         r.channel = cfg.error_transport) :
    transportPhase cfg r = r := by
  rcases h with h | h | h
  · rw [transportPhase, if_neg]
    simp [h]
  · rw [transportPhase, if_neg]
    simp [h]
  · rw [transportPhase, if_neg]
    simp [h]

/-- Witness for C7: an ALIAS result on the error transport passes the
transport phase unchanged even though the map would hit. -/
theorem claim_C7_witness : transportPhase cfgT rAlias = rAlias := by
  exact claim_C7 cfgT rAlias (Or.inr (Or.inr (by decide)))

/-- Claim C9: a token tree that is exactly one empty quoted string is
replaced by the literal postmaster and canonically rewritten before the
rest of the iteration; under the scenario configuration the empty address
resolves to postmaster@example.com via the local transport with flags
LOCAL. -/
theorem claim_C9 :
    (∀ (ora : ResolveOracles) (fuel : Nat) (saved domv : Option (List Tok822)),
       stripLoop ora (fuel + 1) [Tok822.qstring ""] saved domv =
         stripPost ora fuel (ora.rewriteCanon [Tok822.atom "postmaster"])
           saved domv) ∧
    resolve_addr cfgBase oraScn 8 "" "x" = some (some rScn) := by
  constructor
  · intro ora fuel saved domv
    rfl
  · decide

end Postfix
